import Mathlib

/-!
# Manufacturing Component Planner: parser, selector index and requirement calculator

A shallow embedding of `app.js` (CSV parsing, selector population and the
requirement calculation) together with theorems about it.

Modelling conventions

* A JavaScript string is a `List Char`; a character of the model stands for one
  UTF-16 code unit, so comparing characters by code is the comparison the
  default `sort()` performs.
* The numbers the program handles are integers and one quotient; integers are
  `Int`, the quotient is a `ℚ`. The program computes with IEEE doubles, which
  agree with this model as long as magnitudes stay below `2^53`.
* The global `state` object is an explicit `State` value passed to and returned
  from the functions that read or write it.
-/

namespace ComponentPlanner

/-- A JavaScript string, as the list of its code units. -/
abbrev Str := List Char

/-! ## String primitives -/

/-- The characters removed by `String.prototype.trim` and skipped by `parseInt`:
ECMAScript `WhiteSpace` and `LineTerminator`. -/
def isJsWhitespace (c : Char) : Bool :=
  let n := c.toNat
  n == 0x09 || n == 0x0A || n == 0x0B || n == 0x0C || n == 0x0D || n == 0x20 ||
  n == 0xA0 || n == 0x1680 || (0x2000 ≤ n && n ≤ 0x200A) || n == 0x2028 ||
  n == 0x2029 || n == 0x202F || n == 0x205F || n == 0x3000 || n == 0xFEFF

/-- Left part of `trim`: drop the leading white space. -/
def jsTrimStart (s : Str) : Str := s.dropWhile isJsWhitespace

/-- Right part of `trim`: drop the trailing white space. -/
def jsTrimEnd (s : Str) : Str := (s.reverse.dropWhile isJsWhitespace).reverse

/-- `s.trim()`. -/
def jsTrim (s : Str) : Str := jsTrimEnd (jsTrimStart s)

/-- Scan of `s.split(sep)` for a one-character separator: `cur` is the piece
being read. The result always has at least one piece. -/
def splitAux (sep : Char) : Str → Str → List Str
  | [], cur => [cur]
  | x :: xs, cur =>
    if x = sep then cur :: splitAux sep xs [] else splitAux sep xs (cur ++ [x])

/-- `s.split(sep)` for a one-character separator. -/
def jsSplit (sep : Char) (s : Str) : List Str := splitAux sep s []

/-- A decimal digit `0`..`9`. -/
def isDigit (c : Char) : Bool := 48 ≤ c.toNat && c.toNat ≤ 57

/-- Value of a run of decimal digits, most significant first. -/
def digitsValue (z : Str) : Nat := z.foldl (fun acc c => acc * 10 + (c.toNat - 48)) 0

/-- `parseInt(s, 10)`: skip leading white space, read an optional sign, then the
longest run of decimal digits; `none` stands for `NaN` (no digit found).
Whatever follows the digits is ignored. -/
def parseInt (s : Str) : Option Int :=
  let s1 := jsTrimStart s
  let signed : Int × Str :=
    match s1 with
    | '-' :: r => (-1, r)
    | '+' :: r => (1, r)
    | _ => (1, s1)
  let z := signed.2.takeWhile isDigit
  if z = [] then none else some (signed.1 * (digitsValue z : Int))

/-- The idiom `x || 0` on a number that may be `NaN` or `undefined` (`none`):
a falsy value (`NaN`, `undefined`, `0`) gives `0`. -/
def jsOr0 (x : Option Int) : Int :=
  match x with
  | some v => if v ≠ 0 then v else 0
  | none => 0

/-! ## Data model and application state -/

/-- One parsed line of the bill of materials (the object literal `row`). -/
structure BomRow where
  machine_type : Str
  component : Str
  qty_per_machine : Int
  forecasts : List Int
  deriving DecidableEq

/-- The chart object held in `state.chart`, reduced to the series it shows. -/
structure Chart where
  data : List Int
  deriving DecidableEq

/-- The global `state` object. -/
structure State where
  bomData : List BomRow
  selectedComponent : Str
  selectedMachine : Str
  years : Nat
  chart : Option Chart
  deriving DecidableEq

/-- The initial value of `state`. -/
def initialState : State :=
  { bomData := [], selectedComponent := [], selectedMachine := "all".toList,
    years := 5, chart := none }

/-- Exceptions a function of the program could raise. -/
inductive JsError where
  | typeError
  deriving DecidableEq

/-! ## CSV parsing -/

/-- The inner loop `for (let j = 3; j < values.length && j < 13; j++)` of
`parseCSV`. The cursor `rest` is `values.drop j`: `j < values.length` holds
exactly when it is non-empty, and `values[j]` is its head. -/
def forecastLoop : List Str → Nat → List Int → List Int
  | [], _, forecasts => forecasts
  | v :: rest, j, forecasts =>
    if j < 13 then forecastLoop rest (j + 1) (forecasts ++ [jsOr0 (parseInt v)])
    else forecasts

/-- The object `row` that `parseCSV` builds from the trimmed fields `values` of
one line (reached only when `values.length >= 4`). -/
def buildRow (values : List Str) : BomRow :=
  { machine_type := values.getD 0 [],
    component := values.getD 1 [],
    qty_per_machine := jsOr0 (parseInt (values.getD 2 [])),
    forecasts := forecastLoop (values.drop 3) 3 [] }

/-- The loop `for (let i = 1; i < lines.length; i++)` of `parseCSV`. The cursor is
`lines.drop i`; `bomData` is `state.bomData`, to which rows are pushed. -/
def rowLoop : List Str → List BomRow → List BomRow
  | [], bomData => bomData
  | line :: rest, bomData =>
    let values := (jsSplit ',' line).map jsTrim
    if values.length < 4 then rowLoop rest bomData
    else rowLoop rest (bomData ++ [buildRow values])

/-- The function `parseCSV(csvText)`, as a transformer of `state`. Reading
`lines[0]` of an empty array would raise a `TypeError`. The calls that only
redraw the page are left out. -/
def parseCSV (state : State) (csvText : Str) : Except JsError State :=
  let lines := jsSplit '\n' (jsTrim csvText)
  match lines with
  | [] => .error .typeError
  | header :: data =>
    let _headers := (jsSplit ',' header).map jsTrim
    .ok { state with bomData := rowLoop data [] }

/-- The function `resetApp()`, on `state`. -/
def resetApp (state : State) : State :=
  { state with
    bomData := [], selectedComponent := [], selectedMachine := "all".toList,
    years := 5, chart := none }

/-! ## Selector index -/

/-- The values of `[...new Set(xs)]`: each distinct string once, in the order of
first occurrence. -/
def jsSetOf (xs : List Str) : List Str :=
  xs.foldl (fun seen x => if x ∈ seen then seen else seen ++ [x]) []

/-- The method `sort()` without a comparator, on strings: ascending in the
lexicographic order of code units. -/
def jsSort (xs : List Str) : List Str := xs.insertionSort (fun a b => a ≤ b)

/-- The two option lists computed by `populateSelectors`. -/
structure Selectors where
  components : List Str
  machines : List Str
  deriving DecidableEq

/-- The function `populateSelectors()`: the constants `components` and
`machines` from which the two dropdowns are filled. -/
def populateSelectors (state : State) : Selectors :=
  { components := jsSort (jsSetOf (state.bomData.map (fun row => row.component))),
    machines := jsSort (jsSetOf (state.bomData.map (fun row => row.machine_type))) }

/-! ## Requirement calculation -/

/-- A JavaScript number as far as the calculator can produce one. -/
inductive JsNumber where
  | fin (q : ℚ)
  | nan
  | posInfinity
  | negInfinity
  deriving DecidableEq

/-- The quotient `a / b` of two integers. -/
def jsDiv (a b : Int) : JsNumber :=
  if b ≠ 0 then .fin ((a : ℚ) / (b : ℚ))
  else if a = 0 then .nan
  else if 0 < a then .posInfinity
  else .negInfinity

/-- `Math.round(x)`: the integer nearest to `x`, a tie going towards `+∞`. -/
def mathRound : JsNumber → JsNumber
  | .fin q => .fin (⌊q + 1 / 2⌋ : Int)
  | x => x

/-- The larger of two numbers, as `Math.max` takes it. -/
def jsMax2 : JsNumber → JsNumber → JsNumber
  | .nan, _ => .nan
  | _, .nan => .nan
  | .posInfinity, _ => .posInfinity
  | _, .posInfinity => .posInfinity
  | .negInfinity, y => y
  | x, .negInfinity => x
  | .fin a, .fin b => .fin (max a b)

/-- `Math.max(...xs)`: starts from `-∞`, the value for no argument. -/
def mathMax (xs : List Int) : JsNumber :=
  xs.foldl (fun (acc : JsNumber) (x : Int) => jsMax2 acc (.fin (x : ℚ))) .negInfinity

/-- The object returned by `calculateRequirements`. -/
structure Requirements where
  yearlyRequirements : List Int
  yearlyMachines : List Int
  totalComponents : Int
  totalMachines : Int
  avgPerYear : JsNumber
  peakRequirement : JsNumber
  relevantRows : List BomRow
  deriving DecidableEq

/-- The body of `relevantRows.forEach(...)` for one `year`, run over the rows:
the pair is `(yearTotal, machineTotal)`. -/
def yearTotals (relevantRows : List BomRow) (year : Nat) : Int × Int :=
  relevantRows.foldl
    (fun acc row =>
      let forecast := jsOr0 (row.forecasts[year]?)
      (acc.1 + row.qty_per_machine * forecast, acc.2 + forecast))
    (0, 0)

/-- The loop `for (let year = 0; year < state.years; year++)`: the pair is
`(yearlyRequirements, yearlyMachines)`. -/
def yearLoop (relevantRows : List BomRow) (years : Nat) : List Int × List Int :=
  (List.range years).foldl
    (fun acc year =>
      let t := yearTotals relevantRows year
      (acc.1 ++ [t.1], acc.2 ++ [t.2]))
    ([], [])

/-- The rows kept by the two `filter` calls of `calculateRequirements`. -/
def relevantRowsOf (state : State) : List BomRow :=
  let relevantRows := state.bomData.filter (fun row => row.component = state.selectedComponent)
  if state.selectedMachine ≠ "all".toList then
    relevantRows.filter (fun row => row.machine_type = state.selectedMachine)
  else relevantRows

/-- The function `calculateRequirements()`; `none` is the `null` result. -/
def calculateRequirements (state : State) : Option Requirements :=
  if state.selectedComponent = [] then none
  else
    let relevantRows := relevantRowsOf state
    if relevantRows.length = 0 then none
    else
      let yearly := yearLoop relevantRows state.years
      let yearlyRequirements := yearly.1
      let yearlyMachines := yearly.2
      let totalComponents := yearlyRequirements.foldl (fun a b => a + b) 0
      let totalMachines := yearlyMachines.foldl (fun a b => a + b) 0
      let avgPerYear := mathRound (jsDiv totalComponents state.years)
      let peakRequirement := mathMax yearlyRequirements
      some
        { yearlyRequirements := yearlyRequirements
          yearlyMachines := yearlyMachines
          totalComponents := totalComponents
          totalMachines := totalMachines
          avgPerYear := avgPerYear
          peakRequirement := peakRequirement
          relevantRows := relevantRows }

/-! ## Vocabulary of the statements -/

/-- What the body of the row loop does with one line: no row when the line has
fewer than four fields, else the row built from its trimmed fields. -/
def lineRow (line : Str) : Option BomRow :=
  let values := (jsSplit ',' line).map jsTrim
  if values.length < 4 then none else some (buildRow values)

/-- A string made of white space only. -/
def IsBlank (s : Str) : Prop := ∀ c ∈ s, isJsWhitespace c = true

/-- The header is on the first line of the text: no line break comes before the
first character that is not white space. -/
def HeaderOnFirstLine (text : Str) : Prop := '\n' ∉ text.takeWhile isJsWhitespace

instance (text : Str) : Decidable (HeaderOnFirstLine text) := by
  unfold HeaderOnFirstLine; infer_instance

/-- A row passes the filter of the calculator: its component is the selected
one and, unless the machine selection is `all`, its machine type is the
selected one. -/
def Selected (state : State) (row : BomRow) : Prop :=
  row.component = state.selectedComponent ∧
    (state.selectedMachine ≠ "all".toList → row.machine_type = state.selectedMachine)

instance (state : State) (row : BomRow) : Decidable (Selected state row) := by
  unfold Selected; infer_instance

/-- The numbers of a row are non-negative, as the data model asks. -/
def NonNegRow (row : BomRow) : Prop :=
  0 ≤ row.qty_per_machine ∧ ∀ f ∈ row.forecasts, 0 ≤ f

instance (row : BomRow) : Decidable (NonNegRow row) := by
  unfold NonNegRow; infer_instance

/-- The lexicographic order of strings by character code, strict. -/
def StrLt (a b : Str) : Prop := List.Lex (fun x y : Char => x.toNat < y.toNat) a b

/-! ## Example inputs -/

/-- A CSV text: header, a line with a bad number, a short line, a full line. -/
def sampleCsv : Str :=
  "machine,component,qty,y1,y2\nA,B,notanumber,5\nA,B\n M1 , Widget , 2 , 10 ,20\n".toList

/-- The two-row dataset of the specification, component `Widget`, all machines,
two years. -/
def widgetAll : State :=
  { bomData :=
      [ { machine_type := "M1".toList, component := "Widget".toList,
          qty_per_machine := 2, forecasts := [10, 20] },
        { machine_type := "M2".toList, component := "Widget".toList,
          qty_per_machine := 3, forecasts := [5, 5] } ],
    selectedComponent := "Widget".toList, selectedMachine := "all".toList,
    years := 2, chart := none }

/-- The same dataset with machine `M1` selected. -/
def widgetM1 : State := { widgetAll with selectedMachine := "M1".toList }

/-- The result of the specification for `widgetAll`. -/
def widgetAllResult : Requirements :=
  { yearlyRequirements := [35, 55], yearlyMachines := [15, 25],
    totalComponents := 90, totalMachines := 40,
    avgPerYear := .fin 45, peakRequirement := .fin 55,
    relevantRows := widgetAll.bomData }

/-- The result of the specification for `widgetM1`. -/
def widgetM1Result : Requirements :=
  { yearlyRequirements := [20, 40], yearlyMachines := [10, 20],
    totalComponents := 60, totalMachines := 30,
    avgPerYear := .fin 30, peakRequirement := .fin 40,
    relevantRows := widgetAll.bomData.take 1 }

/-- One row, five machines in the first year only, over two years: the mean is
`5 / 2`. -/
def halfState : State :=
  { bomData :=
      [ { machine_type := "M1".toList, component := "Widget".toList,
          qty_per_machine := 1, forecasts := [5] } ],
    selectedComponent := "Widget".toList, selectedMachine := "all".toList,
    years := 2, chart := none }

/-- The result for `halfState`. -/
def halfResult : Requirements :=
  { yearlyRequirements := [5, 0], yearlyMachines := [5, 0],
    totalComponents := 5, totalMachines := 5,
    avgPerYear := .fin 3, peakRequirement := .fin 5,
    relevantRows := halfState.bomData }

/-- A dataset with repeated and unordered names. -/
def shuffledState : State :=
  { initialState with
    bomData :=
      [ { machine_type := "M2".toList, component := "Widget".toList,
          qty_per_machine := 1, forecasts := [1] },
        { machine_type := "M10".toList, component := "Bolt".toList,
          qty_per_machine := 1, forecasts := [1] },
        { machine_type := "M2".toList, component := "Bolt".toList,
          qty_per_machine := 1, forecasts := [1] },
        { machine_type := "m1".toList, component := "Axle".toList,
          qty_per_machine := 1, forecasts := [1] } ] }

/-! ## Further vocabulary and examples -/

/-- The state `widgetM1` after loading `sampleCsv`: new rows, old selection. -/
def widgetM1Reloaded : State :=
  { widgetM1 with
    bomData :=
      [ { machine_type := "A".toList, component := "B".toList,
          qty_per_machine := 0, forecasts := [5] },
        { machine_type := "M1".toList, component := "Widget".toList,
          qty_per_machine := 2, forecasts := [10, 20] } ] }

/-- The call `calculateRequirements()` as a step on the global state: the
function reads `state` and assigns to none of its fields, so the state after the
call is the state before it. -/
def calculateRequirementsStep (state : State) : Option Requirements × State :=
  (calculateRequirements state, state)

/-- The state `widgetAll` once a chart has been drawn. -/
def widgetAllCharted : State := { widgetAll with chart := some { data := [35, 55] } }

/-- A dataset in which one machine type is named `all`. -/
def allNamedState : State :=
  { bomData :=
      [ { machine_type := "all".toList, component := "Widget".toList,
          qty_per_machine := 1, forecasts := [1] },
        { machine_type := "M1".toList, component := "Widget".toList,
          qty_per_machine := 1, forecasts := [2] } ],
    selectedComponent := "Widget".toList, selectedMachine := "all".toList,
    years := 1, chart := none }

/-- The result for `allNamedState`: both rows are aggregated. -/
def allNamedResult : Requirements :=
  { yearlyRequirements := [3], yearlyMachines := [3],
    totalComponents := 3, totalMachines := 3,
    avgPerYear := .fin 3, peakRequirement := .fin 3,
    relevantRows := allNamedState.bomData }

/-- An optional sign: nothing, `+` or `-`. -/
def IsSign (sign : Str) : Prop := sign = [] ∨ sign = ['+'] ∨ sign = ['-']

instance (sign : Str) : Decidable (IsSign sign) := by
  unfold IsSign; infer_instance

/-- The factor a sign stands for. -/
def signValue (sign : Str) : Int := if sign = ['-'] then -1 else 1

/-- The text starts with an optional sign followed by at least one decimal
digit; anything may follow. -/
def HasLeadingInt (t : Str) : Prop :=
  ∃ sign ds suffix, IsSign sign ∧ ds ≠ [] ∧ (∀ c ∈ ds, isDigit c = true) ∧
    t = sign ++ ds ++ suffix

/-- A data line whose numeric fields carry a suffix after the digits. -/
def suffixedLine : Str := "M,W,12abc,3.9,1e3".toList

/-- A CSV text with a negative quantity and a negative forecast. -/
def negativeCsv : Str := "machine,component,qty,y1\nA,B,-2,-3".toList

/-- The initial state after loading `negativeCsv`. -/
def negativeLoaded : State :=
  { initialState with
    bomData := [ { machine_type := "A".toList, component := "B".toList,
                   qty_per_machine := -2, forecasts := [-3] } ] }

/-- The state after loading `sampleCsv` from the initial state. -/
def sampleLoaded : State :=
  { initialState with
    bomData :=
      [ { machine_type := "A".toList, component := "B".toList,
          qty_per_machine := 0, forecasts := [5] },
        { machine_type := "M1".toList, component := "Widget".toList,
          qty_per_machine := 2, forecasts := [10, 20] } ] }

/-- The distinct machine types occurring among the rows of the selected
component, each once, in the order of first occurrence. -/
def machineTypesOf (state : State) : List Str :=
  jsSetOf
    ((state.bomData.filter (fun row => row.component = state.selectedComponent)).map
      (fun row => row.machine_type))

/-- Modelled from the spec: the decimal numeral of an integer, as a formatter
of rows writes it (the program itself contains no formatter): the digits of the
absolute value, most significant first, after a `-` for a negative number. -/
def decimal (i : Int) : Str :=
  if i < 0 then '-' :: Nat.toDigits 10 i.natAbs else Nat.toDigits 10 i.toNat

/-- Pieces joined by a one-character separator. -/
def joinWith (sep : Char) : List Str → Str
  | [] => []
  | [x] => x
  | x :: y :: rest => x ++ sep :: joinWith sep (y :: rest)

/-- Modelled from the spec: one row written as the CSV line
`machineType,component,quantityPerMachine,f1,...,fn` (the program itself
contains no formatter). -/
def formatRow (row : BomRow) : Str :=
  joinWith ','
    (row.machine_type :: row.component :: decimal row.qty_per_machine
      :: row.forecasts.map decimal)

/-- Modelled from the spec: a row set written as CSV text, a header line
followed by one line per row (the program itself contains no formatter). -/
def formatCsv (header : Str) (rows : List BomRow) : Str :=
  joinWith '\n' (header :: rows.map formatRow)

/-- A name that can be written in a CSV field and read back: no comma, no line
break, no white space at either end. -/
def PlainName (s : Str) : Prop := ',' ∉ s ∧ '\n' ∉ s ∧ jsTrim s = s

instance (s : Str) : Decidable (PlainName s) := by
  unfold PlainName; infer_instance

/-- A header line: a single line that is not blank. -/
def HeaderLine (header : Str) : Prop :=
  '\n' ∉ header ∧ ∃ c ∈ header, isJsWhitespace c = false

instance (header : Str) : Decidable (HeaderLine header) := by
  unfold HeaderLine; infer_instance

/-- The data model of a row, for a row that is to be written to CSV:
non-negative quantity and forecasts, at most 10 forecasts, plain names. -/
def DataModelRow (row : BomRow) : Prop :=
  0 ≤ row.qty_per_machine ∧ (∀ f ∈ row.forecasts, 0 ≤ f) ∧ row.forecasts.length ≤ 10 ∧
    PlainName row.machine_type ∧ PlainName row.component

instance (row : BomRow) : Decidable (DataModelRow row) := by
  unfold DataModelRow; infer_instance

/-- A header for the examples. -/
def sampleHeader : Str := "machine,component,qty,y1,y2".toList

/-- A row of the data model without any forecast. -/
def bareRow : BomRow :=
  { machine_type := "M1".toList, component := "Widget".toList,
    qty_per_machine := 2, forecasts := [] }

/-! # Theorems -/

/-! ## Lemmas on splitting and trimming -/

theorem splitAux_ne_nil (sep : Char) (s cur : Str) : splitAux sep s cur ≠ [] := by
  induction s generalizing cur with
  | nil => simp [splitAux]
  | cons x xs ih =>
    unfold splitAux
    split
    · simp
    · exact ih _

theorem splitAux_cur (sep : Char) (s cur : Str) :
    splitAux sep s cur
      = (cur ++ (splitAux sep s []).headD []) :: (splitAux sep s []).tail := by
  induction s generalizing cur with
  | nil => simp [splitAux]
  | cons x xs ih =>
    by_cases hx : x = sep
    · simp [splitAux, hx]
    · simp only [splitAux, hx, if_false]
      rw [ih (cur ++ [x]), ih ([] ++ [x])]
      simp

theorem splitAux_length_cur (sep : Char) (s cur : Str) :
    (splitAux sep s cur).length = (splitAux sep s []).length := by
  rw [splitAux_cur]
  cases h : splitAux sep s [] with
  | nil => exact absurd h (splitAux_ne_nil _ _ _)
  | cons a l => simp

theorem splitAux_free (sep : Char) (w cur : Str) (hw : sep ∉ w) :
    splitAux sep w cur = [cur ++ w] := by
  induction w generalizing cur with
  | nil => simp [splitAux]
  | cons x xs ih =>
    have hx : x ≠ sep := fun h => hw (by simp [h])
    have hxs : sep ∉ xs := fun h => hw (by simp [h])
    simp [splitAux, hx, ih _ hxs]

theorem splitAux_append_free (sep : Char) (w s cur : Str) (hw : sep ∉ w) :
    splitAux sep (w ++ s) cur = splitAux sep s (cur ++ w) := by
  induction w generalizing cur with
  | nil => simp
  | cons x xs ih =>
    have hx : x ≠ sep := fun h => hw (by simp [h])
    have hxs : sep ∉ xs := fun h => hw (by simp [h])
    simp [splitAux, hx, ih _ hxs]

theorem splitAux_blank (sep : Char) (t cur : Str) (ht : IsBlank t) (hc : IsBlank cur) :
    ∀ p ∈ splitAux sep t cur, IsBlank p := by
  induction t generalizing cur with
  | nil => simpa [splitAux] using hc
  | cons x xs ih =>
    have hx : isJsWhitespace x = true := ht x (by simp)
    have hxs : IsBlank xs := fun c h => ht c (by simp [h])
    by_cases h : x = sep
    · simp only [splitAux, h, if_true, List.mem_cons]
      rintro p (rfl | hp)
      · exact hc
      · exact ih [] hxs (by simp [IsBlank]) p hp
    · simp only [splitAux, h, if_false]
      refine ih _ hxs ?_
      intro c hcm
      rcases List.mem_append.1 hcm with h1 | h1
      · exact hc c h1
      · simp at h1; subst h1; exact hx

theorem dropWhile_blank (w : Str) (hw : IsBlank w) : w.dropWhile isJsWhitespace = [] := by
  induction w with
  | nil => rfl
  | cons x xs ih =>
    have hx : isJsWhitespace x = true := hw x (by simp)
    simp [List.dropWhile, hx, ih (fun c h => hw c (by simp [h]))]

theorem dropWhile_blank_append (w s : Str) (hw : IsBlank w) :
    (w ++ s).dropWhile isJsWhitespace = s.dropWhile isJsWhitespace := by
  induction w with
  | nil => rfl
  | cons x xs ih =>
    have hx : isJsWhitespace x = true := hw x (by simp)
    simp [List.dropWhile, hx, ih (fun c h => hw c (by simp [h]))]

theorem dropWhile_append_blank (s w : Str) (hw : IsBlank w) :
    ∃ w1, IsBlank w1 ∧
      (s ++ w).dropWhile isJsWhitespace = s.dropWhile isJsWhitespace ++ w1 := by
  induction s with
  | nil => exact ⟨[], by simp [IsBlank], by simp [dropWhile_blank w hw]⟩
  | cons x xs ih =>
    by_cases hx : isJsWhitespace x = true
    · obtain ⟨w1, h1, h2⟩ := ih
      exact ⟨w1, h1, by simp [List.dropWhile, hx, h2]⟩
    · exact ⟨w, hw, by simp [List.dropWhile, hx]⟩

theorem jsTrimEnd_append_blank (s w : Str) (hw : IsBlank w) :
    jsTrimEnd (s ++ w) = jsTrimEnd s := by
  unfold jsTrimEnd
  rw [List.reverse_append, dropWhile_blank_append _ _ (fun c h => hw c (by simpa using h))]

theorem jsTrim_append_blank (s w : Str) (hw : IsBlank w) : jsTrim (s ++ w) = jsTrim s := by
  unfold jsTrim jsTrimStart
  obtain ⟨w1, h1, h2⟩ := dropWhile_append_blank s w hw
  rw [h2, jsTrimEnd_append_blank _ _ h1]

theorem jsTrimEnd_decomp (s : Str) : ∃ t, IsBlank t ∧ s = jsTrimEnd s ++ t := by
  refine ⟨(s.reverse.takeWhile isJsWhitespace).reverse, ?_, ?_⟩
  · intro c hc
    have := List.mem_takeWhile_imp (List.mem_reverse.1 hc)
    simpa using this
  · unfold jsTrimEnd
    rw [← List.reverse_append, List.takeWhile_append_dropWhile, List.reverse_reverse]

theorem comma_not_blank (w : Str) (hw : IsBlank w) : ',' ∉ w := by
  intro h
  have := hw _ h
  revert this
  decide

theorem split_comma_append_blank (l w cur : Str) (hw : IsBlank w) :
    (splitAux ',' (l ++ w) cur).map jsTrim = (splitAux ',' l cur).map jsTrim := by
  induction l generalizing cur with
  | nil =>
    simp [splitAux, splitAux_free ',' w cur (comma_not_blank w hw), jsTrim_append_blank _ _ hw]
  | cons x xs ih =>
    by_cases hx : x = ','
    · simp [splitAux, hx, ih]
    · simp [splitAux, hx, ih]

theorem lineRow_append_blank (l w : Str) (hw : IsBlank w) : lineRow (l ++ w) = lineRow l := by
  unfold lineRow jsSplit
  rw [split_comma_append_blank l w [] hw]

theorem lineRow_blank (w : Str) (hw : IsBlank w) : lineRow w = none := by
  unfold lineRow jsSplit
  rw [splitAux_free ',' w [] (comma_not_blank w hw)]
  simp

/-! ## The row loop of the parser -/

theorem rowLoop_eq (lines : List Str) (bomData : List BomRow) :
    rowLoop lines bomData = bomData ++ lines.filterMap lineRow := by
  induction lines generalizing bomData with
  | nil => simp [rowLoop]
  | cons line rest ih =>
    by_cases h : ((jsSplit ',' line).map jsTrim).length < 4
    · have hl : lineRow line = none := by simp only [lineRow, h, if_true]
      rw [rowLoop]
      simp only [h, if_true]
      rw [ih, List.filterMap_cons, hl]
    · have hl : lineRow line = some (buildRow ((jsSplit ',' line).map jsTrim)) := by
        simp only [lineRow, h, if_false]
      rw [rowLoop]
      simp only [h, if_false]
      rw [ih, List.filterMap_cons, hl]
      simp

theorem filterMap_lineRow (lines : List Str) :
    lines.filterMap lineRow
      = (lines.filter (fun l => decide (4 ≤ (jsSplit ',' l).length))).map
          (fun l => buildRow ((jsSplit ',' l).map jsTrim)) := by
  induction lines with
  | nil => rfl
  | cons line rest ih =>
    by_cases h : 4 ≤ (jsSplit ',' line).length
    · have hl : lineRow line = some (buildRow ((jsSplit ',' line).map jsTrim)) := by
        simp [lineRow, h]
      simp [List.filterMap_cons, hl, List.filter_cons, h, ih]
    · have hl : lineRow line = none := by
        simp only [lineRow, List.length_map]
        rw [if_pos (by omega)]
      simp [List.filterMap_cons, hl, List.filter_cons, h, ih]

/-- The rows stored by `parseCSV`, for every text: the lines are those of the
trimmed text, the first of them is skipped, the others go through `lineRow`. -/
theorem parseCSV_eq (state : State) (csvText : Str) :
    parseCSV state csvText
      = .ok { state with
          bomData := (jsSplit '\n' (jsTrim csvText)).tail.filterMap lineRow } := by
  unfold parseCSV
  cases h : jsSplit '\n' (jsTrim csvText) with
  | nil => exact absurd h (splitAux_ne_nil _ _ _)
  | cons header data => simp [rowLoop_eq]

theorem rows_blank_lines (t cur : Str) (ht : IsBlank t) (hc : IsBlank cur) :
    (splitAux '\n' t cur).filterMap lineRow = [] := by
  rw [List.filterMap_eq_nil_iff]
  intro p hp
  exact lineRow_blank p (splitAux_blank _ t cur ht hc p hp)

theorem rows_append_blank (core t cur : Str) (ht : IsBlank t) :
    (splitAux '\n' (core ++ t) cur).filterMap lineRow
      = (splitAux '\n' core cur).filterMap lineRow := by
  induction core generalizing cur with
  | nil =>
    have hb : IsBlank ((splitAux '\n' t []).headD []) := by
      cases h : splitAux '\n' t [] with
      | nil => simp [IsBlank]
      | cons a l =>
        have := splitAux_blank '\n' t [] ht (by simp [IsBlank]) a (by simp [h])
        simpa using this
    have htl : (splitAux '\n' t []).tail.filterMap lineRow = [] := by
      rw [List.filterMap_eq_nil_iff]
      intro p hp
      exact lineRow_blank p
        (splitAux_blank _ t [] ht (by simp [IsBlank]) p (List.mem_of_mem_tail hp))
    simp only [List.nil_append]
    rw [splitAux_cur, List.filterMap_cons, lineRow_append_blank _ _ hb, htl]
    simp [splitAux, List.filterMap_cons]
  | cons x xs ih =>
    by_cases hx : x = '\n'
    · simp [splitAux, hx, ih, List.filterMap_cons]
    · simp [splitAux, hx, ih]

theorem tail_rows_append_blank (core t cur : Str) (ht : IsBlank t) :
    (splitAux '\n' (core ++ t) cur).tail.filterMap lineRow
      = (splitAux '\n' core cur).tail.filterMap lineRow := by
  induction core generalizing cur with
  | nil =>
    simp only [List.nil_append]
    rw [splitAux_cur]
    have htl : (splitAux '\n' t []).tail.filterMap lineRow = [] := by
      rw [List.filterMap_eq_nil_iff]
      intro p hp
      exact lineRow_blank p
        (splitAux_blank _ t [] ht (by simp [IsBlank]) p (List.mem_of_mem_tail hp))
    simp [splitAux, htl]
  | cons x xs ih =>
    by_cases hx : x = '\n'
    · simp [splitAux, hx, rows_append_blank xs t [] ht]
    · simp [splitAux, hx, ih]

/-- Data lines of the trimmed text and of the text itself give the same rows,
when the header is on the first line. -/
theorem dataRows_trim (text : Str) (h : HeaderOnFirstLine text) :
    (jsSplit '\n' (jsTrim text)).tail.filterMap lineRow
      = (jsSplit '\n' text).tail.filterMap lineRow := by
  obtain ⟨t, ht, hrest⟩ := jsTrimEnd_decomp (jsTrimStart text)
  have htext : text = text.takeWhile isJsWhitespace ++ jsTrimStart text := by
    unfold jsTrimStart
    exact (List.takeWhile_append_dropWhile _ _).symm
  have h1 : (jsSplit '\n' text).tail = (jsSplit '\n' (jsTrimStart text)).tail := by
    conv_lhs => rw [htext]
    unfold jsSplit
    rw [splitAux_append_free _ _ _ _ h, splitAux_cur]
    rfl
  rw [h1]
  conv_rhs => rw [hrest]
  unfold jsSplit
  rw [tail_rows_append_blank _ _ _ ht]
  rfl

/-! ## C1: one row per data line -/

/-- C1. For a CSV text whose first line is the header, `parseCSV` succeeds and
stores exactly the rows built from the lines after the first that split on `,`
into at least four fields, one row per such line and in the order of the lines;
a line with fewer than four fields gives no row, so the number of rows is the
number of data lines with at least four fields. -/
theorem parseCSV_one_row_per_data_line (state : State) (text : Str)
    (h : HeaderOnFirstLine text) :
    ∃ s, parseCSV state text = .ok s ∧
      s.bomData
        = ((jsSplit '\n' text).tail.filter
            (fun line => decide (4 ≤ (jsSplit ',' line).length))).map
            (fun line => buildRow ((jsSplit ',' line).map jsTrim)) ∧
      s.bomData.length
        = (jsSplit '\n' text).tail.countP
            (fun line => decide (4 ≤ (jsSplit ',' line).length)) := by
  refine ⟨_, parseCSV_eq state text, ?_, ?_⟩
  · show (jsSplit '\n' (jsTrim text)).tail.filterMap lineRow = _
    rw [dataRows_trim text h, filterMap_lineRow]
  · show ((jsSplit '\n' (jsTrim text)).tail.filterMap lineRow).length = _
    rw [dataRows_trim text h, filterMap_lineRow, List.length_map, List.countP_eq_length_filter]

theorem parseCSV_one_row_per_data_line_witness :
    HeaderOnFirstLine sampleCsv ∧
    ∃ s, parseCSV initialState sampleCsv = .ok s ∧
      s.bomData
        = ((jsSplit '\n' sampleCsv).tail.filter
            (fun line => decide (4 ≤ (jsSplit ',' line).length))).map
            (fun line => buildRow ((jsSplit ',' line).map jsTrim)) ∧
      s.bomData.length
        = (jsSplit '\n' sampleCsv).tail.countP
            (fun line => decide (4 ≤ (jsSplit ',' line).length)) :=
  ⟨by decide, parseCSV_one_row_per_data_line initialState sampleCsv (by decide)⟩

/-- When a blank line precedes the header, the first line that is not blank is
taken as the header: here `A,B,C,D` gives no row although it has four fields. -/
theorem parseCSV_leading_blank_line :
    ¬ HeaderOnFirstLine "\nA,B,C,D\nE,F,1,2".toList ∧
    parseCSV initialState "\nA,B,C,D\nE,F,1,2".toList
      = .ok { initialState with
          bomData := [ { machine_type := "E".toList, component := "F".toList,
                         qty_per_machine := 1, forecasts := [2] } ] } :=
  ⟨by decide, by rfl⟩

/-! ## C2, C3: the fields of a row -/

theorem forecastLoop_eq (rest : List Str) (j : Nat) (forecasts : List Int) :
    forecastLoop rest j forecasts
      = forecasts ++ (rest.take (13 - j)).map (fun v => jsOr0 (parseInt v)) := by
  induction rest generalizing j forecasts with
  | nil => simp [forecastLoop]
  | cons v rest ih =>
    by_cases hj : j < 13
    · have h13 : 13 - j = (13 - (j + 1)) + 1 := by omega
      rw [forecastLoop, if_pos hj, ih, h13, List.take_succ_cons]
      simp
    · have h13 : 13 - j = 0 := by omega
      rw [forecastLoop, if_neg hj, h13]
      simp

theorem buildRow_forecasts (values : List Str) :
    (buildRow values).forecasts
      = ((values.drop 3).take 10).map (fun v => jsOr0 (parseInt v)) := by
  simp [buildRow, forecastLoop_eq]

theorem lineRow_of_four (line : Str) (h : 4 ≤ (jsSplit ',' line).length) :
    lineRow line = some (buildRow ((jsSplit ',' line).map jsTrim)) := by
  simp only [lineRow, List.length_map]
  rw [if_neg (by omega)]

theorem mem_bomData_of_line (state : State) (text line : Str)
    (hl : line ∈ (jsSplit '\n' (jsTrim text)).tail) (row : BomRow)
    (hr : lineRow line = some row) :
    ∃ s, parseCSV state text = .ok s ∧ row ∈ s.bomData :=
  ⟨_, parseCSV_eq state text, List.mem_filterMap.2 ⟨line, hl, hr⟩⟩

theorem getD_map_trim (fields : List Str) (i : Nat) (hi : i < fields.length) :
    (fields.map jsTrim).getD i [] = jsTrim (fields.getD i []) := by
  simp [List.getD_eq_getElem?_getD, List.getElem?_map, List.getElem?_eq_getElem hi]

/-- The row built from a line with at least four fields, field by field. -/
theorem lineRow_fields (line : Str) (h : 4 ≤ (jsSplit ',' line).length) :
    ∃ row, lineRow line = some row ∧
      row.machine_type = jsTrim ((jsSplit ',' line).getD 0 []) ∧
      row.component = jsTrim ((jsSplit ',' line).getD 1 []) ∧
      row.qty_per_machine = jsOr0 (parseInt (jsTrim ((jsSplit ',' line).getD 2 []))) ∧
      row.forecasts.length = min (jsSplit ',' line).length 13 - 3 ∧
      row.forecasts.length ≤ 10 ∧
      (∀ k, k < min (jsSplit ',' line).length 13 - 3 →
        row.forecasts[k]?
          = some (jsOr0 (parseInt (jsTrim ((jsSplit ',' line).getD (3 + k) []))))) ∧
      (∀ (state : State) (text : Str), line ∈ (jsSplit '\n' (jsTrim text)).tail →
        ∃ s, parseCSV state text = .ok s ∧ row ∈ s.bomData) := by
  refine ⟨_, lineRow_of_four line h, ?_, ?_, ?_, ?_, ?_, ?_, ?_⟩
  · exact getD_map_trim _ 0 (by omega)
  · exact getD_map_trim _ 1 (by omega)
  · show jsOr0 (parseInt (((jsSplit ',' line).map jsTrim).getD 2 [])) = _
    rw [getD_map_trim _ 2 (by omega)]
  · rw [buildRow_forecasts]
    simp only [List.length_map, List.length_take, List.length_drop]
    omega
  · rw [buildRow_forecasts]
    simp only [List.length_map, List.length_take, List.length_drop]
    omega
  · intro k hk
    rw [buildRow_forecasts]
    have hk3 : 3 + k < (jsSplit ',' line).length := by omega
    have hk10 : k < 10 := by omega
    simp [List.getElem?_map, List.getElem?_take, hk10, List.getElem?_drop,
      List.getElem?_eq_getElem hk3, List.getD_eq_getElem?_getD]
  · intro state text hl
    exact mem_bomData_of_line state text line hl _ (lineRow_of_four line h)

/-- C2. A data line with `n >= 4` comma-separated fields gives a row whose
`machine_type` is field 0 trimmed, whose `component` is field 1 trimmed, whose
`qty_per_machine` is the integer parse of field 2, and whose `forecasts` are the
integer parses of fields `3 .. min(n,13)-1` in order: its length is
`min(n,13) - 3`, at most 10, so later columns are discarded and a short row is
not filled up. That row is stored by `parseCSV` for every text having the line
among its data lines. -/
theorem parseCSV_row_fields (line : Str) (h : 4 ≤ (jsSplit ',' line).length) :
    ∃ row, lineRow line = some row ∧
      row.machine_type = jsTrim ((jsSplit ',' line).getD 0 []) ∧
      row.component = jsTrim ((jsSplit ',' line).getD 1 []) ∧
      row.qty_per_machine = jsOr0 (parseInt (jsTrim ((jsSplit ',' line).getD 2 []))) ∧
      row.forecasts.length = min (jsSplit ',' line).length 13 - 3 ∧
      row.forecasts.length ≤ 10 ∧
      (∀ k, k < min (jsSplit ',' line).length 13 - 3 →
        row.forecasts[k]?
          = some (jsOr0 (parseInt (jsTrim ((jsSplit ',' line).getD (3 + k) []))))) ∧
      (∀ (state : State) (text : Str), line ∈ (jsSplit '\n' (jsTrim text)).tail →
        ∃ s, parseCSV state text = .ok s ∧ row ∈ s.bomData) :=
  lineRow_fields line h

theorem parseCSV_row_fields_witness :
    4 ≤ (jsSplit ',' " M1 , Widget , 2 , 10 ,20".toList).length ∧
    ∃ row, lineRow " M1 , Widget , 2 , 10 ,20".toList = some row ∧
      row.machine_type = jsTrim ((jsSplit ',' " M1 , Widget , 2 , 10 ,20".toList).getD 0 []) ∧
      row.component = jsTrim ((jsSplit ',' " M1 , Widget , 2 , 10 ,20".toList).getD 1 []) ∧
      row.qty_per_machine
        = jsOr0 (parseInt (jsTrim ((jsSplit ',' " M1 , Widget , 2 , 10 ,20".toList).getD 2 []))) ∧
      row.forecasts.length = min (jsSplit ',' " M1 , Widget , 2 , 10 ,20".toList).length 13 - 3 ∧
      row.forecasts.length ≤ 10 ∧
      (∀ k, k < min (jsSplit ',' " M1 , Widget , 2 , 10 ,20".toList).length 13 - 3 →
        row.forecasts[k]?
          = some (jsOr0 (parseInt (jsTrim
              ((jsSplit ',' " M1 , Widget , 2 , 10 ,20".toList).getD (3 + k) []))))) ∧
      (∀ (state : State) (text : Str),
        " M1 , Widget , 2 , 10 ,20".toList ∈ (jsSplit '\n' (jsTrim text)).tail →
        ∃ s, parseCSV state text = .ok s ∧ row ∈ s.bomData) :=
  ⟨by decide, parseCSV_row_fields _ (by decide)⟩

theorem parseCSV_ok (state : State) (text : Str) : ∃ s, parseCSV state text = .ok s :=
  ⟨_, parseCSV_eq state text⟩

theorem jsOr0_none : jsOr0 none = 0 := rfl

/-- C3. In a data line with at least four fields, a quantity or forecast field
whose text `parseInt` cannot read (`NaN`) is stored as `0`, and the row is
produced all the same: it is among the rows of every text having the line among
its data lines, and `parseCSV` raises no exception on any text. -/
theorem parseCSV_bad_number_is_zero (line : Str) (h : 4 ≤ (jsSplit ',' line).length) :
    ∃ row, lineRow line = some row ∧
      (parseInt (jsTrim ((jsSplit ',' line).getD 2 [])) = none → row.qty_per_machine = 0) ∧
      (∀ k, k < row.forecasts.length →
        parseInt (jsTrim ((jsSplit ',' line).getD (3 + k) [])) = none →
        row.forecasts[k]? = some 0) ∧
      (∀ (state : State) (text : Str), line ∈ (jsSplit '\n' (jsTrim text)).tail →
        ∃ s, parseCSV state text = .ok s ∧ row ∈ s.bomData) ∧
      (∀ (state : State) (text : Str), ∃ s, parseCSV state text = .ok s) := by
  obtain ⟨row, hrow, _, _, hq, hlen, _, hf, hmem⟩ := lineRow_fields line h
  refine ⟨row, hrow, ?_, ?_, hmem, parseCSV_ok⟩
  · intro hn
    rw [hq, hn, jsOr0_none]
  · intro k hk hn
    rw [hf k (by omega), hn, jsOr0_none]

theorem parseCSV_bad_number_is_zero_witness :
    4 ≤ (jsSplit ',' "A,B,notanumber,5".toList).length ∧
    ∃ row, lineRow "A,B,notanumber,5".toList = some row ∧
      (parseInt (jsTrim ((jsSplit ',' "A,B,notanumber,5".toList).getD 2 [])) = none →
        row.qty_per_machine = 0) ∧
      (∀ k, k < row.forecasts.length →
        parseInt (jsTrim ((jsSplit ',' "A,B,notanumber,5".toList).getD (3 + k) [])) = none →
        row.forecasts[k]? = some 0) ∧
      (∀ (state : State) (text : Str),
        "A,B,notanumber,5".toList ∈ (jsSplit '\n' (jsTrim text)).tail →
        ∃ s, parseCSV state text = .ok s ∧ row ∈ s.bomData) ∧
      (∀ (state : State) (text : Str), ∃ s, parseCSV state text = .ok s) :=
  ⟨by decide, parseCSV_bad_number_is_zero _ (by decide)⟩

/-- The examples of the specification for the parser: unreadable numbers, a
dropped two-field line, and a line with a bad quantity. -/
theorem parseCSV_examples :
    parseInt "notanumber".toList = none ∧ parseInt [] = none ∧
    lineRow "A,B".toList = none ∧
    lineRow "A,B,notanumber,5".toList
      = some { machine_type := "A".toList, component := "B".toList,
               qty_per_machine := 0, forecasts := [5] } ∧
    lineRow "A,B,,".toList
      = some { machine_type := "A".toList, component := "B".toList,
               qty_per_machine := 0, forecasts := [0] } := by
  decide

/-! ## C4: when there is no result -/

theorem relevantRowsOf_eq (state : State) :
    relevantRowsOf state = state.bomData.filter (fun row => decide (Selected state row)) := by
  unfold relevantRowsOf Selected
  by_cases hm : state.selectedMachine = "all".toList
  · rw [if_neg (not_not.2 hm)]
    apply List.filter_congr
    intro row _
    simp [hm]
  · rw [if_pos hm, List.filter_filter]
    apply List.filter_congr
    intro row _
    have hm2 : (state.selectedMachine ≠ "all".toList) = True := eq_true hm
    simp only [hm2, true_implies, Bool.decide_and]
    exact Bool.and_comm _ _

theorem calculateRequirements_eq_none (state : State) :
    calculateRequirements state = none ↔
      state.selectedComponent = [] ∨ relevantRowsOf state = [] := by
  unfold calculateRequirements
  by_cases hc : state.selectedComponent = []
  · simp [hc]
  · by_cases hr : relevantRowsOf state = []
    · simp [hc, hr]
    · simp [hc, hr]

/-- C4. The function `calculateRequirements` returns `null` exactly when no
component is selected or no row of the dataset passes the filter; in particular
it returns `null` for the empty component whatever the dataset, the machine
selection, the number of years and the chart. -/
theorem calculateRequirements_null_iff (state : State) :
    (calculateRequirements state = none ↔
      state.selectedComponent = [] ∨ ∀ row ∈ state.bomData, ¬ Selected state row) ∧
    (∀ (bomData : List BomRow) (machine : Str) (years : Nat) (chart : Option Chart),
      calculateRequirements
        { bomData := bomData, selectedComponent := [], selectedMachine := machine,
          years := years, chart := chart } = none) := by
  constructor
  · rw [calculateRequirements_eq_none, relevantRowsOf_eq, List.filter_eq_nil_iff]
    simp
  · intro bomData machine years chart
    simp [calculateRequirements]

/-! ## The loops of the calculator -/

theorem jsOr0_getElem (l : List Int) (y : Nat) : jsOr0 (l[y]?) = l.getD y 0 := by
  rw [List.getD_eq_getElem?_getD]
  cases h : l[y]? with
  | none => rfl
  | some v =>
    by_cases hv : v = 0
    · simp [jsOr0, hv]
    · simp [jsOr0, hv]

theorem yearTotals_foldl (rows : List BomRow) (year : Nat) (acc : Int × Int) :
    rows.foldl
      (fun acc row =>
        let forecast := jsOr0 (row.forecasts[year]?)
        (acc.1 + row.qty_per_machine * forecast, acc.2 + forecast)) acc
      = (acc.1 + (rows.map (fun row => row.qty_per_machine * row.forecasts.getD year 0)).sum,
         acc.2 + (rows.map (fun row => row.forecasts.getD year 0)).sum) := by
  induction rows generalizing acc with
  | nil => simp
  | cons row rest ih =>
    rw [List.foldl_cons, ih]
    simp [jsOr0_getElem, add_assoc]

theorem yearTotals_eq (rows : List BomRow) (year : Nat) :
    yearTotals rows year
      = ((rows.map (fun row => row.qty_per_machine * row.forecasts.getD year 0)).sum,
         (rows.map (fun row => row.forecasts.getD year 0)).sum) := by
  unfold yearTotals
  rw [yearTotals_foldl]
  simp

theorem yearLoop_foldl (rows : List BomRow) (ys : List Nat) (acc : List Int × List Int) :
    ys.foldl
      (fun acc year =>
        let t := yearTotals rows year
        (acc.1 ++ [t.1], acc.2 ++ [t.2])) acc
      = (acc.1 ++ ys.map (fun y => (yearTotals rows y).1),
         acc.2 ++ ys.map (fun y => (yearTotals rows y).2)) := by
  induction ys generalizing acc with
  | nil => simp
  | cons y rest ih =>
    rw [List.foldl_cons, ih]
    simp

theorem yearLoop_eq (rows : List BomRow) (years : Nat) :
    yearLoop rows years
      = ((List.range years).map
            (fun y => (rows.map (fun row => row.qty_per_machine * row.forecasts.getD y 0)).sum),
         (List.range years).map (fun y => (rows.map (fun row => row.forecasts.getD y 0)).sum)) := by
  unfold yearLoop
  rw [yearLoop_foldl]
  simp [yearTotals_eq]

theorem foldl_add_eq_sum (l : List Int) (a : Int) :
    l.foldl (fun a b => a + b) a = a + l.sum := by
  induction l generalizing a with
  | nil => simp
  | cons x xs ih => rw [List.foldl_cons, ih, List.sum_cons, add_assoc]

/-- What a non-null result of `calculateRequirements` contains. -/
theorem calculateRequirements_some (state : State) (r : Requirements)
    (h : calculateRequirements state = some r) :
    state.selectedComponent ≠ [] ∧ relevantRowsOf state ≠ [] ∧
    r.relevantRows = relevantRowsOf state ∧
    r.yearlyRequirements = (yearLoop (relevantRowsOf state) state.years).1 ∧
    r.yearlyMachines = (yearLoop (relevantRowsOf state) state.years).2 ∧
    r.totalComponents = r.yearlyRequirements.foldl (fun a b => a + b) 0 ∧
    r.totalMachines = r.yearlyMachines.foldl (fun a b => a + b) 0 ∧
    r.avgPerYear = mathRound (jsDiv r.totalComponents state.years) ∧
    r.peakRequirement = mathMax r.yearlyRequirements := by
  unfold calculateRequirements at h
  by_cases hc : state.selectedComponent = []
  · simp [hc] at h
  · by_cases hr : relevantRowsOf state = []
    · simp [hc, hr] at h
    · simp only [hc, if_false, List.length_eq_zero, hr, Option.some.injEq] at h
      subst h
      exact ⟨hc, hr, rfl, rfl, rfl, rfl, rfl, rfl, rfl⟩

/-! ## Evaluation of the examples -/

theorem widgetAll_result : calculateRequirements widgetAll = some widgetAllResult := by
  simp [calculateRequirements, widgetAll, widgetAllResult, relevantRowsOf, yearLoop,
    yearTotals, jsOr0, mathRound, jsDiv, mathMax, jsMax2, List.range, List.range.loop]
  norm_num

theorem widgetM1_result : calculateRequirements widgetM1 = some widgetM1Result := by
  simp [calculateRequirements, widgetM1, widgetAll, widgetM1Result, relevantRowsOf, yearLoop,
    yearTotals, jsOr0, mathRound, jsDiv, mathMax, jsMax2, List.range, List.range.loop]
  norm_num

theorem halfState_result : calculateRequirements halfState = some halfResult := by
  simp [calculateRequirements, halfState, halfResult, relevantRowsOf, yearLoop,
    yearTotals, jsOr0, mathRound, jsDiv, mathMax, jsMax2, List.range, List.range.loop]
  norm_num

/-! ## C5: the yearly lists -/

theorem mathRound_jsDiv (a : Int) (n : Nat) (hn : 1 ≤ n) :
    mathRound (jsDiv a n) = .fin ((⌊(a : ℚ) / (n : ℚ) + 1 / 2⌋ : Int) : ℚ) := by
  have h0 : (n : Int) ≠ 0 := by omega
  simp [jsDiv, h0, mathRound]

/-- Rounding of some quotients: `90 / 2`, `5 / 2`, `-5 / 2`, `7 / 3`. -/
theorem mathRound_examples :
    mathRound (jsDiv 90 2) = .fin 45 ∧ mathRound (jsDiv 5 2) = .fin 3 ∧
    mathRound (jsDiv (-5) 2) = .fin (-2) ∧ mathRound (jsDiv 7 3) = .fin 2 := by
  refine ⟨?_, ?_, ?_, ?_⟩ <;> simp [mathRound, jsDiv] <;> norm_num

/-! ## C8: the peak -/

theorem mathMax_foldl (xs : List Int) (a : Int) :
    ∃ p : Int,
      xs.foldl (fun (acc : JsNumber) (x : Int) => jsMax2 acc (.fin (x : ℚ))) (.fin (a : ℚ))
        = .fin (p : ℚ) ∧
      (p = a ∨ p ∈ xs) ∧ a ≤ p ∧ ∀ y ∈ xs, y ≤ p := by
  induction xs generalizing a with
  | nil => exact ⟨a, rfl, Or.inl rfl, le_refl _, by simp⟩
  | cons x xs ih =>
    obtain ⟨p, hp, hmem, hle, hall⟩ := ih (max a x)
    refine ⟨p, ?_, ?_, ?_, ?_⟩
    · rw [List.foldl_cons]
      have : jsMax2 (.fin (a : ℚ)) (.fin (x : ℚ)) = .fin ((max a x : Int) : ℚ) := by
        simp [jsMax2]
      rw [this, hp]
    · rcases hmem with h1 | h1
      · rcases le_total a x with h2 | h2
        · right; rw [h1, max_eq_right h2]; simp
        · left; rw [h1, max_eq_left h2]
      · right; exact List.mem_cons_of_mem _ h1
    · exact le_trans (le_max_left _ _) hle
    · intro y hy
      rcases List.mem_cons.1 hy with h1 | h1
      · rw [h1]; exact le_trans (le_max_right _ _) hle
      · exact hall y h1

theorem mathMax_of_ne_nil (xs : List Int) (hne : xs ≠ []) :
    ∃ p : Int, mathMax xs = .fin (p : ℚ) ∧ p ∈ xs ∧ ∀ y ∈ xs, y ≤ p := by
  cases xs with
  | nil => exact absurd rfl hne
  | cons x xs =>
    obtain ⟨p, hp, hmem, hle, hall⟩ := mathMax_foldl xs x
    refine ⟨p, ?_, ?_, ?_⟩
    · unfold mathMax
      rw [List.foldl_cons]
      exact hp
    · rcases hmem with h1 | h1
      · rw [h1]; simp
      · exact List.mem_cons_of_mem _ h1
    · intro y hy
      rcases List.mem_cons.1 hy with h1 | h1
      · rw [h1]; exact hle
      · exact hall y h1

theorem getD_nonneg (l : List Int) (y : Nat) (h : ∀ f ∈ l, 0 ≤ f) : 0 ≤ l.getD y 0 := by
  rw [List.getD_eq_getElem?_getD]
  cases hy : l[y]? with
  | none => simp
  | some v => exact h v (List.getElem?_mem hy)

theorem relevantRows_sublist_all (state : State) (m : Str) :
    List.Sublist (relevantRowsOf { state with selectedMachine := m })
      (relevantRowsOf { state with selectedMachine := "all".toList }) := by
  unfold relevantRowsOf
  rw [if_neg (not_not.2 rfl)]
  split
  · exact List.filter_sublist _
  · exact List.Sublist.refl _

theorem relevantRows_subset (state : State) :
    ∀ row ∈ relevantRowsOf state, row ∈ state.bomData := by
  intro row hrow
  rw [relevantRowsOf_eq] at hrow
  exact List.mem_of_mem_filter hrow

/-- Totals of a result, as double sums over years and rows. -/
theorem calculateRequirements_total_sums (state : State) (r : Requirements)
    (h : calculateRequirements state = some r) :
    r.totalComponents
      = ((List.range state.years).map (fun y =>
          ((relevantRowsOf state).map
            (fun row => row.qty_per_machine * row.forecasts.getD y 0)).sum)).sum ∧
    r.totalMachines
      = ((List.range state.years).map (fun y =>
          ((relevantRowsOf state).map (fun row => row.forecasts.getD y 0)).sum)).sum := by
  obtain ⟨_, _, _, hyr, hym, htc, htm, _⟩ := calculateRequirements_some state r h
  rw [htc, htm, hyr, hym, yearLoop_eq, foldl_add_eq_sum, foldl_add_eq_sum]
  simp

/-- C9. On a dataset whose rows have non-negative quantities and forecasts, if
`calculateRequirements` returns a result for a machine selection `m`, it
returns one for the selection `all` with the same component and years, and the
`totalComponents` and `totalMachines` of the latter are at least those of the
former. -/
theorem calculateRequirements_all_ge_single (state : State) (m : Str) (rm : Requirements)
    (hnn : ∀ row ∈ state.bomData, NonNegRow row)
    (h : calculateRequirements { state with selectedMachine := m } = some rm) :
    ∃ rall, calculateRequirements { state with selectedMachine := "all".toList } = some rall ∧
      rm.totalComponents ≤ rall.totalComponents ∧ rm.totalMachines ≤ rall.totalMachines := by
  have hsub := relevantRows_sublist_all state m
  obtain ⟨hc, hr, _⟩ := calculateRequirements_some _ rm h
  have hall : calculateRequirements { state with selectedMachine := "all".toList } ≠ none := by
    intro h0
    rcases (calculateRequirements_eq_none _).1 h0 with h1 | h1
    · exact hc h1
    · rw [h1] at hsub
      exact hr (List.sublist_nil.1 hsub)
  obtain ⟨rall, hrall⟩ := Option.ne_none_iff_exists'.1 hall
  have hm := calculateRequirements_total_sums _ rm h
  have ha := calculateRequirements_total_sums _ rall hrall
  have hmem : ∀ row ∈ relevantRowsOf { state with selectedMachine := "all".toList },
      NonNegRow row :=
    fun row hrow =>
      hnn row (relevantRows_subset { state with selectedMachine := "all".toList } row hrow)
  refine ⟨rall, hrall, ?_, ?_⟩
  · rw [hm.1, ha.1]
    apply List.sum_le_sum
    intro y _
    apply List.Sublist.sum_le_sum (hsub.map _)
    intro a hamem
    obtain ⟨row, hrow, rfl⟩ := List.mem_map.1 hamem
    exact mul_nonneg (hmem row hrow).1 (getD_nonneg _ _ (hmem row hrow).2)
  · rw [hm.2, ha.2]
    apply List.sum_le_sum
    intro y _
    apply List.Sublist.sum_le_sum (hsub.map _)
    intro a hamem
    obtain ⟨row, hrow, rfl⟩ := List.mem_map.1 hamem
    exact getD_nonneg _ _ (hmem row hrow).2

theorem calculateRequirements_all_ge_single_witness :
    (∀ row ∈ widgetAll.bomData, NonNegRow row) ∧
    calculateRequirements { widgetAll with selectedMachine := "M1".toList }
      = some widgetM1Result ∧
    widgetM1Result.totalComponents = 60 ∧
    calculateRequirements widgetAll = some widgetAllResult ∧
    widgetAllResult.totalComponents = 90 ∧
    ∃ rall,
      calculateRequirements { widgetAll with selectedMachine := "all".toList } = some rall ∧
      widgetM1Result.totalComponents ≤ rall.totalComponents ∧
      widgetM1Result.totalMachines ≤ rall.totalMachines :=
  ⟨by decide, widgetM1_result, rfl, widgetAll_result, rfl,
    calculateRequirements_all_ge_single widgetAll "M1".toList widgetM1Result (by decide)
      widgetM1_result⟩

/-! ## C10: the selector lists -/

theorem jsSetOf_foldl (xs seen : List Str) (hnd : seen.Nodup) :
    (xs.foldl (fun seen x => if x ∈ seen then seen else seen ++ [x]) seen).Nodup ∧
    ∀ x, x ∈ xs.foldl (fun seen x => if x ∈ seen then seen else seen ++ [x]) seen ↔
      x ∈ seen ∨ x ∈ xs := by
  induction xs generalizing seen with
  | nil => simpa using hnd
  | cons a rest ih =>
    rw [List.foldl_cons]
    by_cases ha : a ∈ seen
    · rw [if_pos ha]
      refine ⟨(ih seen hnd).1, fun x => ?_⟩
      rw [(ih seen hnd).2 x, List.mem_cons]
      constructor
      · rintro (h | h)
        · exact Or.inl h
        · exact Or.inr (Or.inr h)
      · rintro (h | h | h)
        · exact Or.inl h
        · exact Or.inl (h ▸ ha)
        · exact Or.inr h
    · rw [if_neg ha]
      have hnd2 : (seen ++ [a]).Nodup := by
        rw [List.nodup_append]
        refine ⟨hnd, by simp, ?_⟩
        intro x hx1 hx2
        rw [List.mem_singleton] at hx2
        exact ha (hx2 ▸ hx1)
      refine ⟨(ih _ hnd2).1, fun x => ?_⟩
      rw [(ih _ hnd2).2 x, List.mem_append, List.mem_singleton, List.mem_cons, or_assoc]

theorem jsSetOf_nodup (xs : List Str) : (jsSetOf xs).Nodup :=
  (jsSetOf_foldl xs [] List.nodup_nil).1

theorem mem_jsSetOf (xs : List Str) (x : Str) : x ∈ jsSetOf xs ↔ x ∈ xs := by
  unfold jsSetOf
  rw [(jsSetOf_foldl xs [] List.nodup_nil).2 x]
  simp

theorem mem_jsSort (xs : List Str) (x : Str) : x ∈ jsSort xs ↔ x ∈ xs :=
  (List.perm_insertionSort _ xs).mem_iff

theorem jsSort_strict (xs : List Str) (hnd : xs.Nodup) : (jsSort xs).Pairwise StrLt := by
  have hs : (jsSort xs).Sorted (fun a b => a ≤ b) := List.sorted_insertionSort _ xs
  have hn : (jsSort xs).Nodup := (List.perm_insertionSort _ xs).nodup_iff.2 hnd
  exact hs.lt_of_le hn

/-- The selector lists of `shuffledState`: upper case sorts before lower case
and `M10` before `M2`. -/
theorem populateSelectors_example :
    populateSelectors shuffledState
      = { components := ["Axle".toList, "Bolt".toList, "Widget".toList],
          machines := ["M10".toList, "M2".toList, "m1".toList] } := by
  decide

/-! ## C11: a load replaces the rows -/

/-- C11. Whatever the prior state, after `parseCSV(text)` the row set is the
rows parsed from `text` alone: it is the row set obtained by parsing the same
text from the initial, empty state, and none of the rows loaded before is kept. -/
theorem parseCSV_replaces_rows (state : State) (text : Str) :
    ∃ s s0, parseCSV state text = .ok s ∧ parseCSV initialState text = .ok s0 ∧
      s.bomData = s0.bomData ∧
      s.bomData = (jsSplit '\n' (jsTrim text)).tail.filterMap lineRow :=
  ⟨_, _, parseCSV_eq state text, parseCSV_eq initialState text, rfl, rfl⟩

/-! ## C12: the selection after a load and after a reset -/

/-- C12, counterexample. Loading `sampleCsv` in a state whose selection is
`Widget` / `M1` / 2 years leaves that selection in place: it is not reset to the
defaults. -/
theorem parseCSV_keeps_selection_counterexample :
    parseCSV widgetM1 sampleCsv = .ok widgetM1Reloaded ∧
    widgetM1Reloaded.selectedComponent = "Widget".toList ∧
    widgetM1Reloaded.selectedMachine = "M1".toList ∧
    widgetM1Reloaded.years = 2 ∧
    ¬ (widgetM1Reloaded.selectedComponent = [] ∧
       widgetM1Reloaded.selectedMachine = "all".toList ∧
       widgetM1Reloaded.years = 5) :=
  ⟨by rfl, rfl, rfl, rfl, by decide⟩

/-- C12, amended. Whatever the prior state, `resetApp` puts the selection at its
defaults (no component, machine `all`, 5 years), while `parseCSV` leaves the
three selection fields as they were; so after a load the selection is at its
defaults when it was before the load, as it is right after `resetApp` and in
the initial state. -/
theorem selection_reset_by_resetApp_kept_by_parseCSV (state : State) (text : Str) :
    ((resetApp state).selectedComponent = [] ∧
      (resetApp state).selectedMachine = "all".toList ∧ (resetApp state).years = 5) ∧
    (∃ s, parseCSV state text = .ok s ∧
      s.selectedComponent = state.selectedComponent ∧
      s.selectedMachine = state.selectedMachine ∧ s.years = state.years) ∧
    (∃ s, parseCSV (resetApp state) text = .ok s ∧
      s.selectedComponent = [] ∧ s.selectedMachine = "all".toList ∧ s.years = 5) ∧
    (∃ s, parseCSV initialState text = .ok s ∧
      s.selectedComponent = [] ∧ s.selectedMachine = "all".toList ∧ s.years = 5) :=
  ⟨⟨rfl, rfl, rfl⟩, ⟨_, parseCSV_eq state text, rfl, rfl, rfl⟩,
    ⟨_, parseCSV_eq (resetApp state) text, rfl, rfl, rfl⟩,
    ⟨_, parseCSV_eq initialState text, rfl, rfl, rfl⟩⟩

/-! ## C15: the calculation is pure -/

theorem relevantRowsOf_congr (s1 s2 : State) (hb : s1.bomData = s2.bomData)
    (hc : s1.selectedComponent = s2.selectedComponent)
    (hm : s1.selectedMachine = s2.selectedMachine) :
    relevantRowsOf s1 = relevantRowsOf s2 := by
  unfold relevantRowsOf
  rw [hb, hc, hm]

theorem allNamed_result : calculateRequirements allNamedState = some allNamedResult := by
  simp [calculateRequirements, allNamedState, allNamedResult, relevantRowsOf, yearLoop,
    yearTotals, jsOr0, mathRound, jsDiv, mathMax, jsMax2, List.range, List.range.loop]
  norm_num

/-- C17, counterexample. In a dataset where a machine type is named `all`,
selecting that machine type aggregates the rows of every machine type: the
relevant rows include the row of machine `M1`, so they are not the rows whose
machine type equals the selected one. -/
theorem machine_named_all_counterexample :
    (∃ row ∈ allNamedState.bomData, row.machine_type = allNamedState.selectedMachine) ∧
    calculateRequirements allNamedState = some allNamedResult ∧
    allNamedResult.relevantRows
      ≠ allNamedState.bomData.filter
          (fun row => decide (row.component = allNamedState.selectedComponent ∧
            row.machine_type = allNamedState.selectedMachine)) :=
  ⟨by decide, allNamed_result, by decide⟩

/-- C17, amended. For a selected machine type other than the string `all`, the
relevant rows of a result are exactly the rows of the dataset with the selected
component and that machine type, in the order of the dataset; for the selection
`all`, also when some machine type bears that name, they are the rows with the
selected component, whatever their machine type. -/
theorem calculateRequirements_machine_filter (state : State) (r : Requirements)
    (h : calculateRequirements state = some r) :
    (state.selectedMachine ≠ "all".toList →
      r.relevantRows
        = state.bomData.filter
            (fun row => decide (row.component = state.selectedComponent ∧
              row.machine_type = state.selectedMachine)) ∧
      ∀ row ∈ r.relevantRows, row.machine_type = state.selectedMachine) ∧
    (state.selectedMachine = "all".toList →
      r.relevantRows
        = state.bomData.filter
            (fun row => decide (row.component = state.selectedComponent))) := by
  obtain ⟨_, _, hrel, _⟩ := calculateRequirements_some state r h
  constructor
  · intro hm
    have hf : r.relevantRows
        = state.bomData.filter
            (fun row => decide (row.component = state.selectedComponent ∧
              row.machine_type = state.selectedMachine)) := by
      rw [hrel, relevantRowsOf_eq]
      apply List.filter_congr
      intro row _
      unfold Selected
      have hm2 : (state.selectedMachine ≠ "all".toList) = True := eq_true hm
      simp only [hm2, true_implies]
    refine ⟨hf, ?_⟩
    intro row hrow
    rw [hf] at hrow
    have := List.of_mem_filter hrow
    simp only [decide_eq_true_eq] at this
    exact this.2
  · intro hm
    rw [hrel]
    unfold relevantRowsOf
    rw [if_neg (not_not.2 hm)]

theorem calculateRequirements_machine_filter_witness :
    calculateRequirements widgetM1 = some widgetM1Result ∧
    widgetM1.selectedMachine ≠ "all".toList ∧
    widgetM1Result.relevantRows
      = widgetM1.bomData.filter
          (fun row => decide (row.component = widgetM1.selectedComponent ∧
            row.machine_type = widgetM1.selectedMachine)) ∧
    ∀ row ∈ widgetM1Result.relevantRows, row.machine_type = widgetM1.selectedMachine :=
  ⟨widgetM1_result, by decide,
    (calculateRequirements_machine_filter widgetM1 widgetM1Result widgetM1_result).1
      (by decide)⟩

/-! ## C16: what `parseInt` reads -/

theorem takeWhile_digits_append (ds suffix : Str) (hd : ∀ c ∈ ds, isDigit c = true) :
    (ds ++ suffix).takeWhile isDigit = ds ++ suffix.takeWhile isDigit := by
  induction ds with
  | nil => rfl
  | cons d rest ih =>
    have h1 : isDigit d = true := hd d (by simp)
    simp [List.takeWhile, h1, ih (fun c hc => hd c (by simp [hc]))]

theorem digit_not_whitespace (c : Char) (h : isDigit c = true) : isJsWhitespace c = false := by
  simp only [isDigit, Bool.and_eq_true, decide_eq_true_eq] at h
  simp only [isJsWhitespace, Bool.or_eq_false_iff, Bool.and_eq_false_iff, beq_eq_false_iff_ne,
    decide_eq_false_iff_not]
  omega

theorem digit_ne_sign (c : Char) (h : isDigit c = true) : c ≠ '-' ∧ c ≠ '+' := by
  constructor <;> (intro hc; subst hc; revert h; decide)

theorem dropWhile_head (p : Char → Bool) (s : Str) (a : Char) (l : Str)
    (h : s.dropWhile p = a :: l) : p a = false := by
  induction s with
  | nil => simp at h
  | cons x xs ih =>
    by_cases hx : p x = true
    · rw [List.dropWhile_cons_of_pos hx] at h
      exact ih h
    · rw [List.dropWhile_cons_of_neg hx] at h
      injection h with h1 _
      rw [← h1]
      simpa using hx

theorem jsTrimStart_idem (s : Str) : jsTrimStart (jsTrimStart s) = jsTrimStart s := by
  unfold jsTrimStart
  cases h : s.dropWhile isJsWhitespace with
  | nil => rfl
  | cons a l =>
    have := dropWhile_head _ s a l h
    simp [List.dropWhile, this]

theorem jsTrimStart_jsTrim (f : Str) : jsTrimStart (jsTrim f) = jsTrim f := by
  unfold jsTrim
  obtain ⟨t, _, hy⟩ := jsTrimEnd_decomp (jsTrimStart f)
  cases hte : jsTrimEnd (jsTrimStart f) with
  | nil => rfl
  | cons a l =>
    rw [hte] at hy
    have ha : isJsWhitespace a = false := dropWhile_head _ f a (l ++ t) hy
    simp [jsTrimStart, List.dropWhile, ha]

theorem parseInt_minus (r : Str) :
    parseInt ('-' :: r)
      = if r.takeWhile isDigit = [] then none
        else some (-1 * (digitsValue (r.takeWhile isDigit) : Int)) := by
  have ht : jsTrimStart ('-' :: r) = '-' :: r := by
    simp [jsTrimStart, List.dropWhile, isJsWhitespace]
  unfold parseInt
  rw [ht]
  rfl

theorem parseInt_plus (r : Str) :
    parseInt ('+' :: r)
      = if r.takeWhile isDigit = [] then none
        else some (1 * (digitsValue (r.takeWhile isDigit) : Int)) := by
  have ht : jsTrimStart ('+' :: r) = '+' :: r := by
    simp [jsTrimStart, List.dropWhile, isJsWhitespace]
  unfold parseInt
  rw [ht]
  rfl

theorem parseInt_unsigned (s1 : Str) (h : jsTrimStart s1 = s1)
    (h1 : ∀ r, s1 ≠ '-' :: r) (h2 : ∀ r, s1 ≠ '+' :: r) :
    parseInt s1
      = if s1.takeWhile isDigit = [] then none
        else some (1 * (digitsValue (s1.takeWhile isDigit) : Int)) := by
  have key : (match s1 with
      | '-' :: r => ((-1 : Int), r)
      | '+' :: r => (1, r)
      | _ => (1, s1)) = (1, s1) := by
    split
    · rename_i r
      exact absurd rfl (h1 r)
    · rename_i r
      exact absurd rfl (h2 r)
    · rfl
  have hg := congrArg
    (fun p : Int × Str =>
      if p.2.takeWhile isDigit = [] then none
      else some (p.1 * (digitsValue (p.2.takeWhile isDigit) : Int))) key
  unfold parseInt
  rw [h]
  exact hg

theorem parseInt_sign_digits (sign ds suffix : Str) (hs : IsSign sign) (hne : ds ≠ [])
    (hd : ∀ c ∈ ds, isDigit c = true) :
    parseInt (sign ++ ds ++ suffix)
      = some (signValue sign * (digitsValue (ds ++ suffix.takeWhile isDigit) : Int)) := by
  have htw := takeWhile_digits_append ds suffix hd
  have hnn : ds ++ suffix.takeWhile isDigit ≠ [] := by simp [hne]
  rcases hs with rfl | rfl | rfl
  · cases ds with
    | nil => exact absurd rfl hne
    | cons d rest =>
      have hdd : isDigit d = true := hd d (by simp)
      have hws := digit_not_whitespace d hdd
      have ht : jsTrimStart ([] ++ (d :: rest) ++ suffix) = [] ++ (d :: rest) ++ suffix := by
        simp [jsTrimStart, List.dropWhile, hws]
      rw [parseInt_unsigned _ ht
        (fun r hr => (digit_ne_sign d hdd).1 (by simpa using (List.cons.inj hr).1))
        (fun r hr => (digit_ne_sign d hdd).2 (by simpa using (List.cons.inj hr).1))]
      simp only [List.nil_append] at htw ⊢
      rw [htw, if_neg hnn]
      simp [signValue]
  · rw [List.append_assoc, List.singleton_append, parseInt_plus, htw, if_neg hnn]
    simp [signValue]
  · rw [List.append_assoc, List.singleton_append, parseInt_minus, htw, if_neg hnn]
    simp [signValue]

theorem hasLeadingInt_of_digits (sign r : Str) (hs : IsSign sign)
    (hz : r.takeWhile isDigit ≠ []) : HasLeadingInt (sign ++ r) :=
  ⟨sign, r.takeWhile isDigit, r.dropWhile isDigit, hs, hz,
    fun _ hc => List.mem_takeWhile_imp hc,
    by rw [List.append_assoc, List.takeWhile_append_dropWhile]⟩

theorem parseInt_eq_none_iff (t : Str) (ht : jsTrimStart t = t) :
    parseInt t = none ↔ ¬ HasLeadingInt t := by
  constructor
  · rintro hn ⟨sign, ds, suffix, hs, hne, hd, rfl⟩
    rw [parseInt_sign_digits sign ds suffix hs hne hd] at hn
    exact Option.noConfusion hn
  · intro hno
    by_cases h1 : ∃ r, t = '-' :: r
    · obtain ⟨r, rfl⟩ := h1
      rw [parseInt_minus]
      by_cases hz : r.takeWhile isDigit = []
      · rw [if_pos hz]
      · exact absurd (hasLeadingInt_of_digits ['-'] r (Or.inr (Or.inr rfl)) hz) hno
    · by_cases h2 : ∃ r, t = '+' :: r
      · obtain ⟨r, rfl⟩ := h2
        rw [parseInt_plus]
        by_cases hz : r.takeWhile isDigit = []
        · rw [if_pos hz]
        · exact absurd (hasLeadingInt_of_digits ['+'] r (Or.inr (Or.inl rfl)) hz) hno
      · rw [parseInt_unsigned t ht (fun r hr => h1 ⟨r, hr⟩) (fun r hr => h2 ⟨r, hr⟩)]
        by_cases hz : t.takeWhile isDigit = []
        · rw [if_pos hz]
        · exact absurd (hasLeadingInt_of_digits [] t (Or.inl rfl) hz) hno

theorem jsOr0_some (v : Int) : jsOr0 (some v) = v := by
  by_cases hv : v = 0
  · simp [jsOr0, hv]
  · simp [jsOr0, hv]

/-- The number stored for a trimmed field that starts with an optional sign and
digits. -/
theorem stored_of_leading_digits (t sign ds suffix : Str) (hs : IsSign sign) (hne : ds ≠ [])
    (hd : ∀ c ∈ ds, isDigit c = true) (ht : t = sign ++ ds ++ suffix) :
    jsOr0 (parseInt t)
      = signValue sign * (digitsValue (ds ++ suffix.takeWhile isDigit) : Int) := by
  rw [ht, parseInt_sign_digits sign ds suffix hs hne hd, jsOr0_some]

/-- Fields with a suffix after the digits: `12abc`, `3.9`, `1e3`, `-7x`, `+8`,
and fields without leading digits: `abc`, `.5`, `-`. -/
theorem parseInt_suffix_examples :
    lineRow "M,W,12abc,3.9,1e3,-7x,+8, 007 ,abc,.5,-".toList
      = some { machine_type := "M".toList, component := "W".toList,
               qty_per_machine := 12, forecasts := [3, 1, -7, 8, 7, 0, 0, 0] } := by
  decide

theorem jsOr0_nonneg (x : Option Int) (h : ∀ v, x = some v → 0 ≤ v) : 0 ≤ jsOr0 x := by
  cases x with
  | none => exact le_refl _
  | some v =>
    rw [jsOr0_some]
    exact h v rfl

theorem parseInt_nonneg (t : Str) (ht : jsTrimStart t = t) (hm : t.head? ≠ some '-') :
    0 ≤ jsOr0 (parseInt t) := by
  have h1 : ∀ r, t ≠ '-' :: r := by
    intro r hr
    rw [hr] at hm
    exact hm rfl
  apply jsOr0_nonneg
  intro v hv
  by_cases h2 : ∃ r, t = '+' :: r
  · obtain ⟨r, rfl⟩ := h2
    rw [parseInt_plus] at hv
    split at hv
    · exact Option.noConfusion hv
    · injection hv with hv
      rw [← hv]
      positivity
  · rw [parseInt_unsigned t ht h1 (fun r hr => h2 ⟨r, hr⟩)] at hv
    split at hv
    · exact Option.noConfusion hv
    · injection hv with hv
      rw [← hv]
      positivity

theorem four_fields_of_lineRow (line : Str) (row : BomRow) (h : lineRow line = some row) :
    4 ≤ (jsSplit ',' line).length := by
  by_contra hlt
  have : lineRow line = none := by
    simp only [lineRow, List.length_map]
    rw [if_pos (by omega)]
  rw [this] at h
  exact Option.noConfusion h

theorem sum_map_indicator_of_not_mem (ms : List Str) (k : Str) (v : Int) (hk : k ∉ ms) :
    (ms.map (fun m => if k = m then v else 0)).sum = 0 := by
  induction ms with
  | nil => rfl
  | cons m rest ih =>
    have h1 : k ≠ m := fun h => hk (by simp [h])
    have h2 : k ∉ rest := fun h => hk (by simp [h])
    simp [h1, ih h2]

theorem sum_map_indicator (ms : List Str) (k : Str) (v : Int) (hnd : ms.Nodup) (hk : k ∈ ms) :
    (ms.map (fun m => if k = m then v else 0)).sum = v := by
  induction ms with
  | nil => simp at hk
  | cons m rest ih =>
    rw [List.nodup_cons] at hnd
    by_cases h1 : k = m
    · subst h1
      simp [sum_map_indicator_of_not_mem rest k v hnd.1]
    · have h2 : k ∈ rest := by
        rcases List.mem_cons.1 hk with h | h
        · exact absurd h h1
        · exact h
      simp [h1, ih hnd.2 h2]

/-- A sum over rows, split by machine type. -/
theorem sum_by_machine (rows : List BomRow) (ms : List Str) (f : BomRow → Int)
    (hnd : ms.Nodup) (hk : ∀ row ∈ rows, row.machine_type ∈ ms) :
    (rows.map f).sum
      = (ms.map (fun m =>
          ((rows.filter (fun row => decide (row.machine_type = m))).map f).sum)).sum := by
  induction rows with
  | nil => simp
  | cons x rest ih =>
    have hx : x.machine_type ∈ ms := hk x (by simp)
    have hrest := ih (fun row hrow => hk row (by simp [hrow]))
    have hstep : ∀ m,
        (((x :: rest).filter (fun row => decide (row.machine_type = m))).map f).sum
          = (if x.machine_type = m then f x else 0)
            + ((rest.filter (fun row => decide (row.machine_type = m))).map f).sum := by
      intro m
      by_cases hm : x.machine_type = m
      · simp [List.filter_cons, hm]
      · simp [List.filter_cons, hm]
    simp only [hstep]
    rw [List.sum_map_add, sum_map_indicator ms x.machine_type (f x) hnd hx, ← hrest]
    simp

theorem sum_map_sum_comm (ys : List Nat) (ms : List Str) (F : Nat → Str → Int) :
    (ys.map (fun y => (ms.map (fun m => F y m)).sum)).sum
      = (ms.map (fun m => (ys.map (fun y => F y m)).sum)).sum := by
  induction ys with
  | nil => simp
  | cons y rest ih =>
    simp only [List.map_cons, List.sum_cons]
    rw [ih, List.sum_map_add]

theorem forall2_of_forall_exists (Q : Str → Requirements → Prop) (ms : List Str)
    (h : ∀ m ∈ ms, ∃ r, Q m r) : ∃ rs, List.Forall₂ Q ms rs := by
  induction ms with
  | nil => exact ⟨[], List.Forall₂.nil⟩
  | cons m rest ih =>
    obtain ⟨r, hr⟩ := h m (by simp)
    obtain ⟨rs, hrs⟩ := ih (fun m hm => h m (by simp [hm]))
    exact ⟨r :: rs, List.Forall₂.cons hr hrs⟩

theorem sum_of_forall2 (Q : Str → Requirements → Prop) (g : Requirements → Int)
    (t : Str → Int) (ms : List Str) (rs : List Requirements) (h : List.Forall₂ Q ms rs)
    (hq : ∀ m r, Q m r → g r = t m) :
    (rs.map g).sum = (ms.map t).sum := by
  induction h with
  | nil => rfl
  | cons hmr _ ih => simp [hq _ _ hmr, ih]

theorem forall2_imp (Q P : Str → Requirements → Prop) (ms : List Str) (rs : List Requirements)
    (h : List.Forall₂ Q ms rs) (hqp : ∀ m r, Q m r → P m r) : List.Forall₂ P ms rs := by
  induction h with
  | nil => exact List.Forall₂.nil
  | cons hmr _ ih => exact List.Forall₂.cons (hqp _ _ hmr) ih

/-- A state with a selected component and at least one relevant row has a
result, whose lists and totals are sums over the relevant rows. -/
theorem result_of_rows (state : State) (hc : state.selectedComponent ≠ [])
    (hr : relevantRowsOf state ≠ []) :
    ∃ r, calculateRequirements state = some r ∧
      r.totalComponents
        = ((List.range state.years).map (fun y =>
            ((relevantRowsOf state).map
              (fun row => row.qty_per_machine * row.forecasts.getD y 0)).sum)).sum ∧
      r.totalMachines
        = ((List.range state.years).map (fun y =>
            ((relevantRowsOf state).map (fun row => row.forecasts.getD y 0)).sum)).sum ∧
      r.yearlyRequirements
        = (List.range state.years).map (fun y =>
            ((relevantRowsOf state).map
              (fun row => row.qty_per_machine * row.forecasts.getD y 0)).sum) := by
  have hne : calculateRequirements state ≠ none := by
    intro h0
    rcases (calculateRequirements_eq_none state).1 h0 with h1 | h1
    · exact hc h1
    · exact hr h1
  obtain ⟨r, hrr⟩ := Option.ne_none_iff_exists'.1 hne
  obtain ⟨_, _, _, hyr, _⟩ := calculateRequirements_some state r hrr
  have ht := calculateRequirements_total_sums state r hrr
  refine ⟨r, hrr, ht.1, ht.2, ?_⟩
  rw [hyr, yearLoop_eq]

theorem relevantRowsOf_all (state : State) :
    relevantRowsOf { state with selectedMachine := "all".toList }
      = state.bomData.filter (fun row => decide (row.component = state.selectedComponent)) := by
  unfold relevantRowsOf
  rw [if_neg (not_not.2 rfl)]

theorem relevantRowsOf_machine (state : State) (m : Str) (hm : m ≠ "all".toList) :
    relevantRowsOf { state with selectedMachine := m }
      = (state.bomData.filter
          (fun row => decide (row.component = state.selectedComponent))).filter
          (fun row => decide (row.machine_type = m)) := by
  unfold relevantRowsOf
  rw [if_pos hm]

theorem getD_map_range (years y : Nat) (hy : y < years) (F : Nat → Int) :
    ((List.range years).map F).getD y 0 = F y := by
  simp [List.getD_eq_getElem?_getD, List.getElem?_map, List.getElem?_range hy]

theorem digitChar_value (k : Nat) (hk : k < 10) :
    (Nat.digitChar k).toNat - 48 = k ∧ isDigit (Nat.digitChar k) = true := by
  interval_cases k <;> decide

theorem toDigitsCore_spec (fuel n : Nat) (ds : Str) (hf : n < fuel) :
    ∃ pre, Nat.toDigitsCore 10 fuel n ds = pre ++ ds ∧ pre ≠ [] ∧
      (∀ c ∈ pre, isDigit c = true) ∧
      ∀ acc : Nat,
        pre.foldl (fun acc c => acc * 10 + (c.toNat - 48)) acc
          = acc * 10 ^ pre.length + n := by
  induction fuel generalizing n ds with
  | zero => omega
  | succ fuel ih =>
    have hd := digitChar_value (n % 10) (Nat.mod_lt _ (by omega))
    unfold Nat.toDigitsCore
    by_cases h0 : n / 10 = 0
    · simp only [h0, if_true]
      refine ⟨[Nat.digitChar (n % 10)], rfl, by simp, ?_, ?_⟩
      · intro c hc
        rw [List.mem_singleton] at hc
        rw [hc]
        exact hd.2
      · intro acc
        have hmod : n % 10 = n := Nat.mod_eq_of_lt (by omega)
        have h1 := hd.1
        simp only [List.foldl_cons, List.foldl_nil, List.length_singleton, pow_one, h1]
        rw [hmod]
    · simp only [h0, if_false]
      obtain ⟨pre, hpre, _, hdig, hval⟩ :=
        ih (n / 10) (Nat.digitChar (n % 10) :: ds) (by omega)
      refine ⟨pre ++ [Nat.digitChar (n % 10)], by rw [hpre]; simp, by simp, ?_, ?_⟩
      · intro c hc
        rcases List.mem_append.1 hc with h | h
        · exact hdig c h
        · rw [List.mem_singleton] at h
          rw [h]
          exact hd.2
      · intro acc
        rw [List.foldl_append, hval acc]
        simp only [List.foldl_cons, List.foldl_nil, List.length_append, List.length_singleton,
          hd.1]
        have := Nat.div_add_mod n 10
        rw [pow_succ]
        nlinarith [this]

theorem toDigits_spec (n : Nat) :
    Nat.toDigits 10 n ≠ [] ∧ (∀ c ∈ Nat.toDigits 10 n, isDigit c = true) ∧
      digitsValue (Nat.toDigits 10 n) = n := by
  obtain ⟨pre, hpre, hne, hdig, hval⟩ := toDigitsCore_spec (n + 1) n [] (by omega)
  unfold Nat.toDigits
  rw [hpre, List.append_nil]
  refine ⟨hne, hdig, ?_⟩
  unfold digitsValue
  rw [hval 0]
  simp

theorem jsSplit_joinWith (sep : Char) (xs : List Str) (hne : xs ≠ [])
    (hfree : ∀ x ∈ xs, sep ∉ x) : jsSplit sep (joinWith sep xs) = xs := by
  induction xs with
  | nil => exact absurd rfl hne
  | cons x rest ih =>
    cases rest with
    | nil =>
      unfold jsSplit
      rw [joinWith, splitAux_free sep x [] (hfree x (by simp))]
      simp
    | cons y rest2 =>
      have hrec := ih (by simp) (fun z hz => hfree z (by simp [hz]))
      unfold jsSplit at hrec ⊢
      rw [joinWith, splitAux_append_free sep x _ [] (hfree x (by simp)), splitAux]
      simp [hrec]

theorem mem_joinWith (sep c : Char) (xs : List Str) (hc : c ∈ joinWith sep xs) :
    c = sep ∨ ∃ x ∈ xs, c ∈ x := by
  induction xs with
  | nil => simp [joinWith] at hc
  | cons x rest ih =>
    cases rest with
    | nil =>
      rw [joinWith] at hc
      exact Or.inr ⟨x, by simp, hc⟩
    | cons y rest2 =>
      rw [joinWith] at hc
      rcases List.mem_append.1 hc with h | h
      · exact Or.inr ⟨x, by simp, h⟩
      · rcases List.mem_cons.1 h with h | h
        · exact Or.inl h
        · rcases ih h with h2 | ⟨z, hz, hcz⟩
          · exact Or.inl h2
          · exact Or.inr ⟨z, by simp [hz], hcz⟩

theorem joinWith_cons (sep : Char) (x : Str) (xs : List Str) :
    ∃ rest, joinWith sep (x :: xs) = x ++ rest := by
  cases xs with
  | nil => exact ⟨[], by simp [joinWith]⟩
  | cons y rest2 => exact ⟨sep :: joinWith sep (y :: rest2), by rw [joinWith]⟩

theorem dropWhile_of_no_ws (s : Str) (h : ∀ c ∈ s, isJsWhitespace c = false) :
    s.dropWhile isJsWhitespace = s := by
  cases s with
  | nil => rfl
  | cons a l => simp [List.dropWhile, h a (by simp)]

theorem jsTrim_of_no_ws (s : Str) (h : ∀ c ∈ s, isJsWhitespace c = false) : jsTrim s = s := by
  unfold jsTrim jsTrimStart jsTrimEnd
  rw [dropWhile_of_no_ws s h, dropWhile_of_no_ws s.reverse (fun c hc => h c (by simpa using hc)),
    List.reverse_reverse]

theorem decimal_spec (q : Int) (hq : 0 ≤ q) :
    jsOr0 (parseInt (decimal q)) = q ∧ jsTrim (decimal q) = decimal q ∧
      ',' ∉ decimal q ∧ '\n' ∉ decimal q := by
  obtain ⟨hne, hdig, hval⟩ := toDigits_spec q.toNat
  have hdec : decimal q = Nat.toDigits 10 q.toNat := by
    unfold decimal
    rw [if_neg (by omega)]
  rw [hdec]
  refine ⟨?_, ?_, ?_, ?_⟩
  · have := stored_of_leading_digits (Nat.toDigits 10 q.toNat) [] (Nat.toDigits 10 q.toNat) []
      (Or.inl rfl) hne hdig (by simp)
    rw [this]
    simp only [List.takeWhile_nil, List.append_nil, hval, signValue]
    simp
    omega
  · exact jsTrim_of_no_ws _ (fun c hc => digit_not_whitespace c (hdig c hc))
  · intro hc
    have := hdig _ hc
    revert this
    decide
  · intro hc
    have := hdig _ hc
    revert this
    decide

theorem takeWhile_ws_append (h x : Str) (hc : ∃ c ∈ h, isJsWhitespace c = false) :
    (h ++ x).takeWhile isJsWhitespace = h.takeWhile isJsWhitespace := by
  induction h with
  | nil => simp at hc
  | cons a l ih =>
    by_cases ha : isJsWhitespace a = true
    · obtain ⟨c, hcm, hcw⟩ := hc
      have hcl : c ∈ l := by
        rcases List.mem_cons.1 hcm with h1 | h1
        · rw [h1, ha] at hcw
          exact Bool.noConfusion hcw
        · exact h1
      simp [List.takeWhile, ha, ih ⟨c, hcl, hcw⟩]
    · simp [List.takeWhile, ha]

theorem headerOnFirstLine_formatCsv (header : Str) (rows : List BomRow)
    (hh : HeaderLine header) : HeaderOnFirstLine (formatCsv header rows) := by
  obtain ⟨rest, hrest⟩ := joinWith_cons '\n' header (rows.map formatRow)
  unfold HeaderOnFirstLine formatCsv
  rw [hrest, takeWhile_ws_append header rest hh.2]
  intro hmem
  exact hh.1 ((List.takeWhile_sublist _).subset hmem)

theorem formatRow_fields (row : BomRow) (hm : DataModelRow row) :
    (jsSplit ',' (formatRow row)).map jsTrim
      = row.machine_type :: row.component :: decimal row.qty_per_machine
          :: row.forecasts.map decimal := by
  obtain ⟨hq, hf, _, hmt, hco⟩ := hm
  have hfree : ∀ x ∈ row.machine_type :: row.component :: decimal row.qty_per_machine
      :: row.forecasts.map decimal, ',' ∉ x := by
    intro x hx
    rcases List.mem_cons.1 hx with h | hx
    · rw [h]; exact hmt.1
    rcases List.mem_cons.1 hx with h | hx
    · rw [h]; exact hco.1
    rcases List.mem_cons.1 hx with h | hx
    · rw [h]; exact (decimal_spec _ hq).2.2.1
    obtain ⟨f, hfm, rfl⟩ := List.mem_map.1 hx
    exact (decimal_spec f (hf f hfm)).2.2.1
  unfold formatRow
  rw [jsSplit_joinWith ',' _ (by simp) hfree]
  simp only [List.map_cons, hmt.2.2, hco.2.2, (decimal_spec _ hq).2.1, List.map_map]
  congr 3
  apply List.map_congr_left
  intro f hfm
  exact (decimal_spec f (hf f hfm)).2.1

theorem lineRow_formatRow (row : BomRow) (hm : DataModelRow row) (hne : row.forecasts ≠ []) :
    lineRow (formatRow row) = some row := by
  have hfields := formatRow_fields row hm
  obtain ⟨hq, hf, hlen, _, _⟩ := hm
  have hpos : 0 < row.forecasts.length := List.length_pos.2 hne
  unfold lineRow
  rw [hfields]
  have h4 : ¬ (row.machine_type :: row.component :: decimal row.qty_per_machine
      :: row.forecasts.map decimal).length < 4 := by
    simp only [List.length_cons, List.length_map]
    omega
  simp only [h4, if_false]
  congr 1
  have hfc : (buildRow (row.machine_type :: row.component :: decimal row.qty_per_machine
      :: row.forecasts.map decimal)).forecasts = row.forecasts := by
    rw [buildRow_forecasts]
    simp only [List.drop_succ_cons, List.drop_zero]
    rw [List.take_of_length_le (by simpa using hlen), List.map_map]
    conv_rhs => rw [← List.map_id row.forecasts]
    apply List.map_congr_left
    intro f hfm
    exact (decimal_spec f (hf f hfm)).1
  have hqty : (buildRow (row.machine_type :: row.component :: decimal row.qty_per_machine
      :: row.forecasts.map decimal)).qty_per_machine = row.qty_per_machine :=
    (decimal_spec _ hq).1
  cases row with
  | mk m c q fs =>
    simp only at hfc hqty
    show BomRow.mk _ _ _ _ = _
    congr 1

theorem formatRow_no_newline (row : BomRow) (hm : DataModelRow row) :
    '\n' ∉ formatRow row := by
  obtain ⟨hq, hf, _, hmt, hco⟩ := hm
  intro hmem
  rcases mem_joinWith ',' '\n' _ hmem with h | ⟨x, hx, hcx⟩
  · revert h
    decide
  · rcases List.mem_cons.1 hx with h | hx
    · rw [h] at hcx; exact hmt.2.1 hcx
    rcases List.mem_cons.1 hx with h | hx
    · rw [h] at hcx; exact hco.2.1 hcx
    rcases List.mem_cons.1 hx with h | hx
    · rw [h] at hcx; exact (decimal_spec _ hq).2.2.2 hcx
    obtain ⟨f, hfm, rfl⟩ := List.mem_map.1 hx
    exact (decimal_spec f (hf f hfm)).2.2.2 hcx

theorem filterMap_lineRow_format (rows : List BomRow)
    (hm : ∀ row ∈ rows, DataModelRow row) (hne : ∀ row ∈ rows, row.forecasts ≠ []) :
    (rows.map formatRow).filterMap lineRow = rows := by
  induction rows with
  | nil => rfl
  | cons row rest ih =>
    rw [List.map_cons, List.filterMap_cons,
      lineRow_formatRow row (hm row (by simp)) (hne row (by simp)),
      ih (fun r hr => hm r (by simp [hr])) (fun r hr => hne r (by simp [hr]))]

/-- The rows stored after parsing a formatted row set, before any condition on
the number of forecasts: the rows read back from the formatted lines. -/
theorem parseCSV_formatCsv (state : State) (header : Str) (rows : List BomRow)
    (hh : HeaderLine header) (hm : ∀ row ∈ rows, DataModelRow row) :
    parseCSV state (formatCsv header rows)
      = .ok { state with bomData := (rows.map formatRow).filterMap lineRow } := by
  rw [parseCSV_eq, dataRows_trim _ (headerOnFirstLine_formatCsv header rows hh)]
  have hsplit : jsSplit '\n' (formatCsv header rows) = header :: rows.map formatRow := by
    unfold formatCsv
    apply jsSplit_joinWith '\n' _ (by simp)
    intro x hx
    rcases List.mem_cons.1 hx with h | hx
    · rw [h]; exact hh.1
    · obtain ⟨row, hrow, rfl⟩ := List.mem_map.1 hx
      exact formatRow_no_newline row (hm row hrow)
  rw [hsplit]
  rfl

theorem lineRow_formatRow_bare (row : BomRow) (hm : DataModelRow row)
    (hnil : row.forecasts = []) : lineRow (formatRow row) = none := by
  have hfields := formatRow_fields row hm
  unfold lineRow
  rw [hfields, hnil]
  rfl

theorem filterMap_lineRow_format_filter (rows : List BomRow)
    (hm : ∀ row ∈ rows, DataModelRow row) :
    (rows.map formatRow).filterMap lineRow
      = rows.filter (fun row => decide (row.forecasts ≠ [])) := by
  induction rows with
  | nil => rfl
  | cons row rest ih =>
    have hrest := ih (fun r hr => hm r (by simp [hr]))
    by_cases hne : row.forecasts = []
    · rw [List.map_cons, List.filterMap_cons, lineRow_formatRow_bare row (hm row (by simp)) hne,
        hrest, List.filter_cons]
      simp [hne]
    · rw [List.map_cons, List.filterMap_cons, lineRow_formatRow row (hm row (by simp)) hne,
        hrest, List.filter_cons]
      simp [hne]

end ComponentPlanner
